import Mathlib

/-!
Verification of the ampackage template-scaffolding tool's source-resolution,
caching and configuration subsystem.  Definitions are shallow embeddings of
the JavaScript code in `src/bin/config.js` and `src/bin/fetcher.js`:
asynchronous filesystem state is passed explicitly (the cache directory is an
association list from cache paths to file content plus mtime), fallible
operations return `Except`/`Option`, and JavaScript string primitives
(`String.prototype.replace` with a string pattern, `includes`, `endsWith`,
Node's `path.parse(...).name`) are modelled character-list-exactly.
-/

namespace Ampackage

/-- Helper `getFileExtension(type)` from `src/bin/fetcher.js`:
`.tsx` for components, `.ts` otherwise. -/
def getFileExtension (type : String) : String :=
  if type == "component" then ".tsx" else ".ts"

/-- Helper `pluralizeType(type)` from `src/bin/fetcher.js`: appends `s`. -/
def pluralizeType (type : String) : String :=
  type ++ "s"

/-- A configured template source: an entry of the `sources` array of the
configuration document (`src/bin/config.js`).  Absent JSON keys are `none`. -/
structure Source where
  name : String
  type : String
  url : Option String := none
  path : Option String := none
  branch : Option String := none
  default : Option Bool := none
deriving DecidableEq

/-- The `cache` object of the configuration document. -/
structure CacheConfig where
  enabled : Bool
  ttl : Int
deriving DecidableEq

/-- The root configuration document `{ sources, cache }`. -/
structure Config where
  sources : List Source
  cache : CacheConfig
deriving DecidableEq

/-- `defaultConfig` from `src/bin/config.js`: a single bundled local source
and a cache block with `enabled: true, ttl: 3600000`. -/
def defaultConfig : Config :=
  { sources := [{ name := "local", type := "local", path := some "./templates",
                  default := some true }],
    cache := { enabled := true, ttl := 3600000 } }

/-- The options bag passed to `addSource` by the CLI (`--branch`, `--path`,
`--default`); spread into the constructed source object. -/
structure SourceOptions where
  branch : Option String := none
  path : Option String := none
  default : Option Bool := none
deriving DecidableEq

/-- The source object literal `{ name, type, url, ...options }` built inside
`addSource` (`src/bin/config.js`). -/
def mkSource (name type url : String) (options : SourceOptions) : Source :=
  { name := name, type := type, url := some url,
    branch := options.branch, path := options.path, default := options.default }

/-- `Array.prototype.findIndex` on the sources array (`-1` becomes `none`). -/
def findIndex (p : Source → Bool) : List Source → Option Nat
  | [] => none
  | s :: rest => if p s then some 0 else (findIndex p rest).map (· + 1)

/-- `addSource(name, type, url, options)` from `src/bin/config.js`, with the
loaded configuration passed in and the document that gets saved returned:
finds an existing entry with the same name, overwrites it in place, otherwise
pushes the new source at the end; returns the saved document and the source. -/
def addSource (config : Config) (name type url : String) (options : SourceOptions) :
    Config × Source :=
  let source := mkSource name type url options
  let sources :=
    match findIndex (fun s => s.name == name) config.sources with
    | some i => config.sources.set i source
    | none => config.sources ++ [source]
  ({ config with sources := sources }, source)

/-- ASCII single-quote character, used in the `removeSource` error message. -/
def sq : String := String.singleton (Char.ofNat 39)

/-- The message of the error thrown by `removeSource` when no entry matched. -/
def removeSourceNotFoundMsg (name : String) : String :=
  "Source " ++ sq ++ name ++ sq ++ " not found"

/-- `removeSource(name)` from `src/bin/config.js`: filters out every source
whose name strictly equals `name`; if the filtered list has the same length as
before, throws the not-found error (before any save); otherwise the filtered
document is saved and `true` is returned. -/
def removeSource (config : Config) (name : String) : Except String (Config × Bool) :=
  let newSources := config.sources.filter (fun s => !(s.name == name))
  if newSources.length == config.sources.length then
    Except.error (removeSourceNotFoundMsg name)
  else
    Except.ok ({ config with sources := newSources }, true)

/-! ### Helper lemmas for `addSource` -/

/-- Recursive reformulation of the find-and-replace-or-append step of
`addSource`, convenient for induction: `name₀` is the name being matched. -/
def replaceOrAppendN (name₀ : String) (src : Source) : List Source → List Source
  | [] => [src]
  | s :: rest =>
      if s.name == name₀ then src :: rest else s :: replaceOrAppendN name₀ src rest

theorem findIndex_set_eq_replaceOrAppendN (name₀ : String) (src : Source)
    (l : List Source) :
    (match findIndex (fun s => s.name == name₀) l with
     | some i => l.set i src
     | none => l ++ [src]) = replaceOrAppendN name₀ src l := by
  induction l with
  | nil => rfl
  | cons s rest ih =>
    by_cases h : s.name = name₀
    · simp [findIndex, replaceOrAppendN, h]
    · have hb : (s.name == name₀) = false := by simpa using h
      cases hf : findIndex (fun t => t.name == name₀) rest with
      | none =>
        rw [hf] at ih
        simp [findIndex, replaceOrAppendN, hb, hf]
        exact ih
      | some i =>
        rw [hf] at ih
        simp [findIndex, replaceOrAppendN, hb, hf, List.set]
        exact ih

theorem addSource_fst (config : Config) (name type url : String)
    (options : SourceOptions) :
    (addSource config name type url options).1
      = { config with
          sources := replaceOrAppendN name (mkSource name type url options)
            config.sources } := by
  have h := findIndex_set_eq_replaceOrAppendN name (mkSource name type url options)
    config.sources
  cases hf : findIndex (fun s => s.name == name) config.sources with
  | none =>
    rw [hf] at h
    simp [addSource, hf]
    exact h
  | some i =>
    rw [hf] at h
    simp [addSource, hf]
    exact h

theorem replaceOrAppendN_names_mem (name₀ : String) (src : Source) :
    ∀ (l : List Source) (x : String),
      x ∈ (replaceOrAppendN name₀ src l).map Source.name →
      x = src.name ∨ x ∈ l.map Source.name := by
  intro l
  induction l with
  | nil =>
    intro x hx
    simp [replaceOrAppendN] at hx
    exact Or.inl hx
  | cons s rest ih =>
    intro x hx
    by_cases h : s.name = name₀
    · have hb : (s.name == name₀) = true := by simpa using h
      rw [replaceOrAppendN, if_pos hb] at hx
      simp only [List.map_cons, List.mem_cons] at hx
      rcases hx with hx | hx
      · exact Or.inl hx
      · exact Or.inr (by simp [hx])
    · have hb : (s.name == name₀) = false := by simpa using h
      rw [replaceOrAppendN, if_neg (by simp [hb])] at hx
      simp only [List.map_cons, List.mem_cons] at hx
      rcases hx with hx | hx
      · exact Or.inr (by simp [hx])
      · rcases ih x hx with h1 | h1
        · exact Or.inl h1
        · exact Or.inr (by simp [h1])

theorem replaceOrAppendN_nodup (name₀ : String) (src : Source)
    (hname : src.name = name₀) :
    ∀ l : List Source, (l.map Source.name).Nodup →
      ((replaceOrAppendN name₀ src l).map Source.name).Nodup := by
  intro l
  induction l with
  | nil => intro _; simp [replaceOrAppendN]
  | cons s rest ih =>
    intro h
    simp only [List.map_cons, List.nodup_cons] at h
    by_cases hs : s.name = name₀
    · have hb : (s.name == name₀) = true := by simpa using hs
      rw [replaceOrAppendN, if_pos hb]
      simp only [List.map_cons, List.nodup_cons]
      refine ⟨?_, h.2⟩
      rw [hname, ← hs]
      exact h.1
    · have hb : (s.name == name₀) = false := by simpa using hs
      rw [replaceOrAppendN, if_neg (by simp [hb])]
      simp only [List.map_cons, List.nodup_cons]
      refine ⟨fun hmem => ?_, ih h.2⟩
      rcases replaceOrAppendN_names_mem name₀ src rest s.name hmem with h1 | h1
      · exact hs (by rw [h1, hname])
      · exact h.1 h1

theorem replaceOrAppendN_countP (name₀ : String) (src : Source)
    (hname : src.name = name₀) :
    ∀ l : List Source, (l.map Source.name).Nodup →
      (replaceOrAppendN name₀ src l).countP (fun s => s.name == name₀) = 1 := by
  intro l
  induction l with
  | nil =>
    intro _
    simp [replaceOrAppendN, List.countP_cons, hname]
  | cons s rest ih =>
    intro h
    simp only [List.map_cons, List.nodup_cons] at h
    by_cases hs : s.name = name₀
    · have hb : (s.name == name₀) = true := by simpa using hs
      have hzero : rest.countP (fun t => t.name == name₀) = 0 := by
        rw [List.countP_eq_zero]
        intro t ht hmatch
        have ht' : t.name = name₀ := by simpa using hmatch
        have hmem : name₀ ∈ List.map Source.name rest :=
          ht' ▸ List.mem_map_of_mem Source.name ht
        exact h.1 (by rw [hs]; exact hmem)
      rw [replaceOrAppendN, if_pos hb, List.countP_cons]
      simp [hname, hzero]
    · have hb : (s.name == name₀) = false := by simpa using hs
      rw [replaceOrAppendN, if_neg (by simp [hb]), List.countP_cons]
      simp [hb, ih h.2]

theorem replaceOrAppendN_twice (name₀ : String) (src₁ src₂ : Source)
    (h₁ : src₁.name = name₀) :
    ∀ l : List Source,
      replaceOrAppendN name₀ src₂ (replaceOrAppendN name₀ src₁ l)
        = replaceOrAppendN name₀ src₂ l := by
  intro l
  induction l with
  | nil => simp [replaceOrAppendN, h₁]
  | cons s rest ih =>
    by_cases hs : s.name = name₀
    · have hb : (s.name == name₀) = true := by simpa using hs
      have hb₁ : (src₁.name == name₀) = true := by simpa using h₁
      rw [replaceOrAppendN, if_pos hb, replaceOrAppendN, if_pos hb₁,
        replaceOrAppendN, if_pos hb]
    · have hb : (s.name == name₀) = false := by simpa using hs
      rw [replaceOrAppendN, if_neg (by simp [hb]), replaceOrAppendN,
        if_neg (by simp [hb]), replaceOrAppendN, if_neg (by simp [hb]), ih]

/-! ### Claims C6, C7, C10 -/

/-- C6: starting from a configuration with unique source names, `addSource`
replaces an existing same-named entry in place (at its existing index) or
appends a fresh one at the end; afterwards exactly one source carries that
name, uniqueness is preserved, and re-adding under the same name yields the
same configuration as a single add (in particular the second location wins and
keeps the original position). -/
theorem claim_C6_addSource_replace_or_append
    (config : Config) (name t₁ u₁ t₂ u₂ : String) (o₁ o₂ : SourceOptions)
    (h : (config.sources.map Source.name).Nodup) :
    (((addSource config name t₁ u₁ o₁).1.sources.map Source.name).Nodup)
    ∧ (addSource config name t₁ u₁ o₁).1.sources.countP (fun s => s.name == name) = 1
    ∧ (∀ i, findIndex (fun s => s.name == name) config.sources = some i →
        (addSource config name t₁ u₁ o₁).1.sources
          = config.sources.set i (mkSource name t₁ u₁ o₁))
    ∧ (findIndex (fun s => s.name == name) config.sources = none →
        (addSource config name t₁ u₁ o₁).1.sources
          = config.sources ++ [mkSource name t₁ u₁ o₁])
    ∧ (addSource (addSource config name t₁ u₁ o₁).1 name t₂ u₂ o₂).1
        = (addSource config name t₂ u₂ o₂).1 := by
  refine ⟨?_, ?_, ?_, ?_, ?_⟩
  · rw [addSource_fst]
    exact replaceOrAppendN_nodup name (mkSource name t₁ u₁ o₁) rfl config.sources h
  · rw [addSource_fst]
    exact replaceOrAppendN_countP name (mkSource name t₁ u₁ o₁) rfl config.sources h
  · intro i hi
    simp [addSource, hi]
  · intro hi
    simp [addSource, hi]
  · rw [addSource_fst, addSource_fst, addSource_fst]
    show ({ config with
        sources := replaceOrAppendN name (mkSource name t₂ u₂ o₂)
          (replaceOrAppendN name (mkSource name t₁ u₁ o₁) config.sources) } : Config) = _
    rw [replaceOrAppendN_twice name (mkSource name t₁ u₁ o₁) (mkSource name t₂ u₂ o₂)
      rfl config.sources]

theorem claim_C6_witness :
    (((Config.mk [⟨"a", "local", none, some "/p", none, none⟩] ⟨true, 3600000⟩).sources.map
        Source.name).Nodup)
    ∧ (addSource (Config.mk [⟨"a", "local", none, some "/p", none, none⟩] ⟨true, 3600000⟩)
          "x" "local" "/a" {}).1.sources.countP (fun s => s.name == "x") = 1 := by
  refine ⟨by decide, ?_⟩
  exact (claim_C6_addSource_replace_or_append
    (Config.mk [⟨"a", "local", none, some "/p", none, none⟩] ⟨true, 3600000⟩)
    "x" "local" "/a" "local" "/b" {} {} (by decide)).2.1

/-- C7: when no configured source carries the given name, `removeSource`
throws the quoted not-found error; the error is raised before any save, so no
configuration document is persisted on this path (the `Except.error` result
carries no document). -/
theorem claim_C7_removeSource_missing (config : Config) (name : String)
    (h : ∀ s ∈ config.sources, s.name ≠ name) :
    removeSource config name = Except.error (removeSourceNotFoundMsg name) := by
  have hfilter : config.sources.filter (fun s => !(s.name == name)) = config.sources := by
    rw [List.filter_eq_self]
    intro s hs
    simpa using h s hs
  simp [removeSource, hfilter]

theorem claim_C7_witness :
    ((⟨"a", "local", none, some "/p", none, none⟩ : Source).name ≠ "x")
    ∧ removeSource (Config.mk [⟨"a", "local", none, some "/p", none, none⟩] ⟨true, 3600000⟩) "x"
        = Except.error (removeSourceNotFoundMsg "x") := by
  refine ⟨by decide, ?_⟩
  exact claim_C7_removeSource_missing
    (Config.mk [⟨"a", "local", none, some "/p", none, none⟩] ⟨true, 3600000⟩) "x" (by decide)

/-- C10: when at least one configured source carries the name, `removeSource`
saves the document with every same-named entry filtered out (keeping all
others in order) and returns `true`. -/
theorem claim_C10_removeSource_filters_all (config : Config) (name : String)
    (h : ∃ s ∈ config.sources, s.name = name) :
    removeSource config name
      = Except.ok ({ config with
          sources := config.sources.filter (fun s => !(s.name == name)) }, true)
    ∧ (∀ s ∈ config.sources.filter (fun s => !(s.name == name)), s.name ≠ name)
    ∧ (∀ s ∈ config.sources, s.name ≠ name →
        s ∈ config.sources.filter (fun s => !(s.name == name))) := by
  obtain ⟨s₀, hs₀, hname₀⟩ := h
  have hlt : (config.sources.filter (fun s => !(s.name == name))).length
      < config.sources.length := by
    refine List.length_filter_lt_length_iff_exists.mpr ?_
    exact ⟨s₀, hs₀, by simp [hname₀]⟩
  refine ⟨?_, ?_, ?_⟩
  · have hne : ((config.sources.filter (fun s => !(s.name == name))).length
        == config.sources.length) = false := by
      simp [Nat.ne_of_lt hlt]
    simp [removeSource, hne]
  · intro s hs
    have := (List.mem_filter.mp hs).2
    simpa using this
  · intro s hs hne
    exact List.mem_filter.mpr ⟨hs, by simpa using hne⟩

theorem claim_C10_witness :
    ((⟨"x", "local", none, some "/p", none, none⟩ : Source).name = "x")
    ∧ removeSource (Config.mk [⟨"x", "local", none, some "/p", none, none⟩,
        ⟨"x", "github", some "u", none, none, none⟩] ⟨true, 3600000⟩) "x"
      = Except.ok (Config.mk [] ⟨true, 3600000⟩, true) := by
  refine ⟨rfl, ?_⟩
  have h := claim_C10_removeSource_filters_all
    (Config.mk [⟨"x", "local", none, some "/p", none, none⟩,
      ⟨"x", "github", some "u", none, none, none⟩] ⟨true, 3600000⟩) "x"
    ⟨⟨"x", "local", none, some "/p", none, none⟩, by decide, rfl⟩
  exact h.1

/-! ### JavaScript string primitives, modelled on character lists -/

/-- Does `l` start with `pat`? (character-list prefix test) -/
def startsWithL : List Char → List Char → Bool
  | _, [] => true
  | [], _ :: _ => false
  | a :: as, b :: bs => a == b && startsWithL as bs

/-- Index of the first occurrence of `pat` in a character list, as computed
by JavaScript `String.prototype.indexOf`; `none` when absent. -/
def firstOccurIdx (pat : List Char) : List Char → Option Nat
  | [] => if startsWithL [] pat then some 0 else none
  | a :: t =>
      if startsWithL (a :: t) pat then some 0 else (firstOccurIdx pat t).map (· + 1)

/-- JavaScript `s.replace(pat, repl)` with a string pattern: replaces the
first occurrence only; `s` is returned unchanged when `pat` does not occur. -/
def replaceFirstL (hay pat repl : List Char) : List Char :=
  match firstOccurIdx pat hay with
  | none => hay
  | some i => hay.take i ++ repl ++ hay.drop (i + pat.length)

def replaceFirst (s pat repl : String) : String :=
  String.mk (replaceFirstL s.data pat.data repl.data)

/-- JavaScript `s.includes(pat)` (used with nonempty patterns only). -/
def jsIncludes (s pat : String) : Bool :=
  (firstOccurIdx pat.data s.data).isSome

/-- JavaScript `s.endsWith(suf)`. -/
def endsWithL (l suf : List Char) : Bool :=
  startsWithL l.reverse suf.reverse

def jsEndsWith (s suf : String) : Bool :=
  endsWithL s.data suf.data

/-- Index of the last occurrence of character `c`, used to model the
extension split of Node's `path.parse`. -/
def lastIdxOf (c : Char) : List Char → Option Nat
  | [] => none
  | a :: t =>
    match lastIdxOf c t with
    | some i => some (i + 1)
    | none => if a == c then some 0 else none

/-- Node `path.parse(file).name` for a plain basename: the text before the
last dot, except that a basename with no dot, a basename whose only dot is
leading (a dotfile such as `.ts`), and the special entry `..` are returned
whole. -/
def pathParseName (file : String) : String :=
  if file == ".." then file
  else
    match lastIdxOf ('.') file.data with
    | none => file
    | some i => if i == 0 then file else String.mk (file.data.take i)

theorem startsWithL_append_self : ∀ (p rest : List Char),
    startsWithL (p ++ rest) p = true := by
  intro p
  induction p with
  | nil => intro rest; cases rest <;> rfl
  | cons a as ih => intro rest; simp [startsWithL, ih]

theorem jsEndsWith_append_self (s suf : String) : jsEndsWith (s ++ suf) suf = true := by
  obtain ⟨sd⟩ := s
  obtain ⟨ed⟩ := suf
  show startsWithL ((sd ++ ed).reverse) (ed.reverse) = true
  rw [List.reverse_append]
  exact startsWithL_append_self ed.reverse sd.reverse

theorem lastIdxOf_none_of_no_dot : ∀ (l : List Char), (∀ c ∈ l, c ≠ ('.')) →
    lastIdxOf ('.') l = none := by
  intro l
  induction l with
  | nil => intro _; rfl
  | cons a t ih =>
    intro h
    have ht := ih (fun c hc => h c (List.mem_cons_of_mem a hc))
    have ha : (a == ('.')) = false := by simpa using h a (List.mem_cons_self a t)
    simp [lastIdxOf, ht, ha]

theorem lastIdxOf_append_dot (l rest : List Char) (h : ∀ c ∈ rest, c ≠ ('.')) :
    lastIdxOf ('.') (l ++ ('.') :: rest) = some l.length := by
  induction l with
  | nil =>
    have hr := lastIdxOf_none_of_no_dot rest h
    simp [lastIdxOf, hr]
  | cons a t ih =>
    simp [lastIdxOf, ih]

theorem pathParseName_append (name : String) (rest : List Char)
    (hname : name ≠ "") (hrest : ∀ c ∈ rest, c ≠ ('.')) (hrest0 : rest ≠ []) :
    pathParseName (name ++ String.mk (('.') :: rest)) = name := by
  obtain ⟨nd⟩ := name
  have hnd : nd ≠ [] := fun hc => hname (by rw [hc])
  have hdata : (String.mk nd ++ String.mk (('.') :: rest)).data = nd ++ ('.') :: rest := rfl
  have hne : ¬((String.mk nd ++ String.mk (('.') :: rest) == "..") = true) := by
    intro hcontra
    have heq : String.mk nd ++ String.mk (('.') :: rest) = ".." := by
      simpa using hcontra
    have hlen : (nd ++ ('.') :: rest).length = ("..".data).length := by
      rw [← hdata, heq]
    have h2 : ("..".data).length = 2 := rfl
    rw [h2] at hlen
    simp only [List.length_append, List.length_cons] at hlen
    have hn1 : 0 < nd.length := List.length_pos.mpr hnd
    have hr1 : 0 < rest.length := List.length_pos.mpr hrest0
    omega
  have hlast : lastIdxOf ('.') (nd ++ ('.') :: rest) = some nd.length :=
    lastIdxOf_append_dot nd rest hrest
  have hzero : (nd.length == 0) = false := by
    simp [List.length_eq_zero, hnd]
  rw [pathParseName, if_neg hne, hdata, hlast]
  simp only [hzero, Bool.false_eq_true, if_false]
  rw [List.take_left]

/-! ### Cache manager (`CacheManager` in `src/bin/fetcher.js`) -/

/-- A cache path `<cacheRoot>/<sourceName>/<typeDir>/<fileName>`, the triple
joined by `getCachePath`.  `fileName` is a single path component, which is
faithful exactly when the template name contains no path separator. -/
structure CacheKey where
  sourceName : String
  typeDir : String
  fileName : String
deriving DecidableEq

/-- A cached file: content plus filesystem last-modified time (ms). -/
structure CacheEntry where
  content : String
  mtime : Int
deriving DecidableEq

/-- The files under the cache root, in directory order. -/
abbrev CacheStore := List (CacheKey × CacheEntry)

/-- `CacheManager.getCachePath(source, type, name)`:
`path.join(cacheDir, source.name, pluralizeType(type), name + ext)`. -/
def getCachePath (source : Source) (type name : String) : CacheKey :=
  ⟨source.name, pluralizeType type, name ++ getFileExtension type⟩

def lookupEntry (fs : CacheStore) (k : CacheKey) : Option CacheEntry :=
  match fs with
  | [] => none
  | p :: rest => if p.1 = k then some p.2 else lookupEntry rest k

/-- `fs.pathExists` on a cache path. -/
def pathExistsFs (fs : CacheStore) (k : CacheKey) : Bool :=
  (lookupEntry fs k).isSome

/-- `CacheManager.isCacheValid(cachePath, ttl)`: stat the file and compare
its age `Date.now() - mtime` with `ttl`; a failing stat yields `false`. -/
def isCacheValid (fs : CacheStore) (cachePath : CacheKey) (now ttl : Int) : Bool :=
  match lookupEntry fs cachePath with
  | some stats => decide (now - stats.mtime < ttl)
  | none => false

/-- `CacheManager.getCachedFile(source, type, name, ttl)`; `now` is the clock
value read inside `isCacheValid`. -/
def getCachedFile (fs : CacheStore) (source : Source) (type name : String)
    (ttl now : Int) : Option String :=
  let cachePath := getCachePath source type name
  if pathExistsFs fs cachePath && isCacheValid fs cachePath now ttl then
    (lookupEntry fs cachePath).map CacheEntry.content
  else
    none

/-- `fs.writeFile`: overwrite in place or create, setting mtime to `now`. -/
def setEntry (fs : CacheStore) (k : CacheKey) (e : CacheEntry) : CacheStore :=
  match fs with
  | [] => [(k, e)]
  | p :: rest => if p.1 = k then (k, e) :: rest else p :: setEntry rest k e

/-- `CacheManager.setCachedFile(source, type, name, content)` at time `now`. -/
def setCachedFile (fs : CacheStore) (source : Source) (type name content : String)
    (now : Int) : CacheStore :=
  setEntry fs (getCachePath source type name) ⟨content, now⟩

/-- `fs.readdir` on `<cacheRoot>/<sourceName>/<typeDir>`: the file names in
that directory, empty when the directory is absent. -/
def readdirCache (fs : CacheStore) (sourceName typeDir : String) : List String :=
  (fs.filter (fun e => e.1.sourceName == sourceName && e.1.typeDir == typeDir)).map
    (fun e => e.1.fileName)

/-- `CacheManager.listCachedTemplates(source, type)`: keep the `.ts`/`.tsx`
files of the source/type cache directory and strip the extension with
`path.parse(file).name`. -/
def listCachedTemplates (fs : CacheStore) (source : Source) (type : String) :
    List String :=
  let files := readdirCache fs source.name (pluralizeType type)
  (files.filter (fun file => jsEndsWith file ".ts" || jsEndsWith file ".tsx")).map
    pathParseName

theorem lookupEntry_setEntry_self (fs : CacheStore) (k : CacheKey) (e : CacheEntry) :
    lookupEntry (setEntry fs k e) k = some e := by
  induction fs with
  | nil => simp [setEntry, lookupEntry]
  | cons p rest ih =>
    by_cases h : p.1 = k
    · simp [setEntry, lookupEntry, h]
    · simp [setEntry, lookupEntry, h, ih]

/-! ### Claim C4 -/

/-- C4: cache round-trip.  After `setCachedFile` at time `tset`, a
`getCachedFile` at time `now` with threshold `ttl` returns exactly the stored
content when the entry's age is strictly below `ttl` and a `none` miss once
the age reaches `ttl`; on an absent file the result is likewise a miss. -/
theorem claim_C4_cache_roundtrip (fs : CacheStore) (source : Source)
    (type name content : String) (tset now ttl : Int) :
    (getCachedFile (setCachedFile fs source type name content tset) source type name ttl now
      = if now - tset < ttl then some content else none)
    ∧ (lookupEntry fs (getCachePath source type name) = none →
        getCachedFile fs source type name ttl now = none) := by
  constructor
  · have hl := lookupEntry_setEntry_self fs (getCachePath source type name) ⟨content, tset⟩
    by_cases h : now - tset < ttl <;>
      simp [getCachedFile, setCachedFile, pathExistsFs, isCacheValid, hl, h]
  · intro h
    simp [getCachedFile, pathExistsFs, isCacheValid, h]

theorem claim_C4_witness :
    (lookupEntry ([] : CacheStore)
        (getCachePath ⟨"gh", "github", some "u", none, none, none⟩ "hook" "useA") = none)
    ∧ getCachedFile ([] : CacheStore) ⟨"gh", "github", some "u", none, none, none⟩
        "hook" "useA" 3600000 0 = none := by
  refine ⟨rfl, ?_⟩
  exact (claim_C4_cache_roundtrip [] ⟨"gh", "github", some "u", none, none, none⟩
    "hook" "useA" "c" 0 0 3600000).2 rfl

/-! ### Claim C9 -/

theorem readdirCache_setEntry_mem (fs : CacheStore) (k : CacheKey) (e : CacheEntry) :
    k.fileName ∈ readdirCache (setEntry fs k e) k.sourceName k.typeDir := by
  induction fs with
  | nil => simp [setEntry, readdirCache]
  | cons p rest ih =>
    show k.fileName ∈ readdirCache
      (if p.1 = k then (k, e) :: rest else p :: setEntry rest k e) k.sourceName k.typeDir
    by_cases h : p.1 = k
    · rw [if_pos h]
      simp [readdirCache, List.filter_cons]
    · rw [if_neg h]
      by_cases hm : (p.1.sourceName == k.sourceName && p.1.typeDir == k.typeDir) = true
      · have hcons : readdirCache (p :: setEntry rest k e) k.sourceName k.typeDir
            = p.1.fileName :: readdirCache (setEntry rest k e) k.sourceName k.typeDir := by
          simp [readdirCache, List.filter_cons, hm]
        rw [hcons]
        exact List.mem_cons_of_mem _ ih
      · have hskip : readdirCache (p :: setEntry rest k e) k.sourceName k.typeDir
            = readdirCache (setEntry rest k e) k.sourceName k.typeDir := by
          simp [readdirCache, List.filter_cons, hm]
        rw [hskip]
        exact ih

theorem jsEndsWith_fileExt (name type : String) :
    (jsEndsWith (name ++ getFileExtension type) ".ts"
      || jsEndsWith (name ++ getFileExtension type) ".tsx") = true := by
  by_cases h : (type == "component") = true
  · have : getFileExtension type = ".tsx" := by simp [getFileExtension, h]
    rw [this, jsEndsWith_append_self name ".tsx"]
    simp
  · have : getFileExtension type = ".ts" := by simp [getFileExtension, h]
    rw [this, jsEndsWith_append_self name ".ts"]
    simp

theorem pathParseName_fileExt (name type : String) (hname : name ≠ "") :
    pathParseName (name ++ getFileExtension type) = name := by
  by_cases h : (type == "component") = true
  · have hext : getFileExtension type = ".tsx" := by simp [getFileExtension, h]
    have hmk : (".tsx" : String) = String.mk (('.') :: ['t', 's', 'x']) := rfl
    rw [hext, hmk]
    exact pathParseName_append name ['t', 's', 'x'] hname (by decide) (by decide)
  · have hext : getFileExtension type = ".ts" := by simp [getFileExtension, h]
    have hmk : (".ts" : String) = String.mk (('.') :: ['t', 's']) := rfl
    rw [hext, hmk]
    exact pathParseName_append name ['t', 's'] hname (by decide) (by decide)

/-- C9 (amended): writing a cache entry for a nonempty template name makes
that name appear in `listCachedTemplates` for the same source and kind; the
listing consists of the `path.parse`-stripped names of exactly the directory
entries ending in `.ts` or `.tsx`; an absent (empty) directory lists as `[]`.
The separator-freedom hypothesis records that the model treats the name as a
single path component, per the TemplateRef invariant. -/
theorem claim_C9_amended_cache_list_coherence (fs : CacheStore) (source : Source)
    (type name content : String) (now : Int)
    (hname : name ≠ "") (_hsep : ∀ c ∈ name.data, c ≠ ('/')) :
    name ∈ listCachedTemplates (setCachedFile fs source type name content now) source type
    ∧ (∀ x, x ∈ listCachedTemplates fs source type ↔
        ∃ file, file ∈ readdirCache fs source.name (pluralizeType type)
          ∧ (jsEndsWith file ".ts" || jsEndsWith file ".tsx") = true
          ∧ pathParseName file = x)
    ∧ (readdirCache fs source.name (pluralizeType type) = [] →
        listCachedTemplates fs source type = []) := by
  refine ⟨?_, ?_, ?_⟩
  · have hmem : (name ++ getFileExtension type)
        ∈ readdirCache (setCachedFile fs source type name content now) source.name
            (pluralizeType type) := by
      have h := readdirCache_setEntry_mem fs (getCachePath source type name)
        ⟨content, now⟩
      simpa [setCachedFile, getCachePath] using h
    refine List.mem_map.mpr ⟨name ++ getFileExtension type, ?_, ?_⟩
    · exact List.mem_filter.mpr ⟨hmem, jsEndsWith_fileExt name type⟩
    · exact pathParseName_fileExt name type hname
  · intro x
    simp only [listCachedTemplates, List.mem_map, List.mem_filter]
    constructor
    · rintro ⟨file, ⟨hmem, hq⟩, hx⟩
      exact ⟨file, hmem, hq, hx⟩
    · rintro ⟨file, hmem, hq, hx⟩
      exact ⟨file, ⟨hmem, hq⟩, hx⟩
  · intro h
    simp [listCachedTemplates, h]

/-- C9 counterexample: caching the empty-named hook writes the dotfile `.ts`;
Node `path.parse(".ts").name` is `".ts"`, so the listing contains `".ts"`,
not the empty name. -/
theorem claim_C9_counterexample :
    listCachedTemplates
        (setCachedFile [] ⟨"s", "github", some "u", none, none, none⟩ "hook" "" "body" 0)
        ⟨"s", "github", some "u", none, none, none⟩ "hook" = [".ts"]
    ∧ "" ∉ listCachedTemplates
        (setCachedFile [] ⟨"s", "github", some "u", none, none, none⟩ "hook" "" "body" 0)
        ⟨"s", "github", some "u", none, none, none⟩ "hook" := by
  constructor
  · rfl
  · decide

theorem claim_C9_witness :
    (("useA" : String) ≠ "")
    ∧ "useA" ∈ listCachedTemplates
        (setCachedFile [] ⟨"s", "github", some "u", none, none, none⟩ "hook" "useA" "b" 0)
        ⟨"s", "github", some "u", none, none, none⟩ "hook" := by
  refine ⟨by decide, ?_⟩
  exact (claim_C9_amended_cache_list_coherence []
    ⟨"s", "github", some "u", none, none, none⟩ "hook" "useA" "b" 0
    (by decide) (by decide)).1

/-! ### Claim C3 -/

/-- The message of the error thrown by the unimplemented npm fetch path. -/
def npmNotImplementedMsg : String := "NPM source fetching not yet implemented"

/-- `NpmFetcher.fetchFile(type, name, useCache)` from `src/bin/fetcher.js`:
when `useCache`, the cache is consulted with the hard-coded one-hour TTL and
a truthy (non-null, nonempty) cached string is returned as-is; in every other
case the not-implemented error is thrown. -/
def npmFetchFile (fs : CacheStore) (source : Source) (type name : String)
    (useCache : Bool) (now : Int) : Except String String :=
  if useCache then
    match getCachedFile fs source type name 3600000 now with
    | some cached =>
        if cached == "" then Except.error npmNotImplementedMsg else Except.ok cached
    | none => Except.error npmNotImplementedMsg
  else
    Except.error npmNotImplementedMsg

/-- `NpmFetcher.listTemplates(type, useCache)`: the cached listing when
`useCache`, otherwise the empty list; never an error. -/
def npmListTemplates (fs : CacheStore) (source : Source) (type : String)
    (useCache : Bool) : List String :=
  if useCache then listCachedTemplates fs source type else []

/-- C3 counterexample: with a valid nonempty cache entry under the npm
source's name, `NpmFetcher.fetchFile` returns the cached content instead of
failing with the not-implemented error. -/
theorem claim_C3_counterexample :
    npmFetchFile
        (setCachedFile [] ⟨"reg", "npm", some "pkg", none, none, none⟩ "hook" "useA" "code" 0)
        ⟨"reg", "npm", some "pkg", none, none, none⟩ "hook" "useA" true 0
      = Except.ok "code" := by
  rfl

/-- C3 (amended): the registry fetcher's `fetchFile` fails with the
not-implemented error whenever the cache is bypassed, misses, or holds only
an empty (falsy) string — but a valid nonempty cached entry is returned;
`listTemplates` never fails, returning the cached listing or `[]`. -/
theorem claim_C3_amended_npm_behaviour (fs : CacheStore) (source : Source)
    (type name : String) (now : Int) :
    (npmFetchFile fs source type name false now = Except.error npmNotImplementedMsg)
    ∧ (getCachedFile fs source type name 3600000 now = none →
        npmFetchFile fs source type name true now = Except.error npmNotImplementedMsg)
    ∧ (∀ c, getCachedFile fs source type name 3600000 now = some c → c ≠ "" →
        npmFetchFile fs source type name true now = Except.ok c)
    ∧ (getCachedFile fs source type name 3600000 now = some "" →
        npmFetchFile fs source type name true now = Except.error npmNotImplementedMsg)
    ∧ (∀ useCache, npmListTemplates fs source type useCache
        = if useCache then listCachedTemplates fs source type else []) := by
  refine ⟨rfl, ?_, ?_, ?_, fun _ => rfl⟩
  · intro h
    simp [npmFetchFile, h]
  · intro c hc hne
    simp [npmFetchFile, hc, hne]
  · intro h
    simp [npmFetchFile, h]

theorem claim_C3_witness :
    (getCachedFile ([] : CacheStore) ⟨"reg", "npm", some "pkg", none, none, none⟩
        "hook" "x" 3600000 0 = none)
    ∧ npmFetchFile ([] : CacheStore) ⟨"reg", "npm", some "pkg", none, none, none⟩
        "hook" "x" true 0 = Except.error npmNotImplementedMsg := by
  refine ⟨rfl, ?_⟩
  exact (claim_C3_amended_npm_behaviour [] ⟨"reg", "npm", some "pkg", none, none, none⟩
    "hook" "x" 0).2.1 rfl

/-! ### Resolution engine (`fetchTemplate` in `src/bin/fetcher.js`) -/

/-- The source loop of `fetchTemplate(sources, type, name, packageRoot)`:
`fetchFile src` abstracts `createFetcher(src, packageRoot).fetchFile(type, name)`
for the fixed template under resolution, and `errors` accumulates the
per-source failure lines `` `${source.name}: ${error.message}` ``. -/
def fetchTemplateGo (fetchFile : Source → Except String String) :
    List Source → List String → Except String (String × Source)
  | [], errors =>
      Except.error ("Template not found in any source:\n"
        ++ String.intercalate "\n" errors)
  | source :: rest, errors =>
      match fetchFile source with
      | Except.ok content => Except.ok (content, source)
      | Except.error msg =>
          fetchTemplateGo fetchFile rest (errors ++ [source.name ++ ": " ++ msg])

/-- `fetchTemplate(sources, type, name, packageRoot)`: try each source in
order, return the first success paired with its source, else throw the
aggregate error. -/
def fetchTemplate (sources : List Source) (fetchFile : Source → Except String String) :
    Except String (String × Source) :=
  fetchTemplateGo fetchFile sources []

theorem fetchTemplateGo_ok (fetchFile : Source → Except String String)
    (s : Source) (content : String) (hs : fetchFile s = Except.ok content) :
    ∀ (pre post : List Source) (errors : List String),
      (∀ t ∈ pre, ∃ e, fetchFile t = Except.error e) →
      fetchTemplateGo fetchFile (pre ++ s :: post) errors = Except.ok (content, s) := by
  intro pre
  induction pre with
  | nil =>
    intro post errors _
    simp [fetchTemplateGo, hs]
  | cons t rest ih =>
    intro post errors h
    obtain ⟨e, he⟩ := h t (List.mem_cons_self t rest)
    simp only [List.cons_append, fetchTemplateGo, he]
    exact ih post _ (fun u hu => h u (List.mem_cons_of_mem t hu))

/-- C1: when every source before `s` fails and `s`'s fetch succeeds with
`content`, `fetchTemplate` succeeds with exactly `content` paired with `s`,
regardless of what the later sources `post` would have produced — the first
successful source in configured order wins and iteration stops there. -/
theorem claim_C1_first_success_wins (fetchFile : Source → Except String String)
    (pre post : List Source) (s : Source) (content : String)
    (hpre : ∀ t ∈ pre, ∃ e, fetchFile t = Except.error e)
    (hs : fetchFile s = Except.ok content) :
    fetchTemplate (pre ++ s :: post) fetchFile = Except.ok (content, s) :=
  fetchTemplateGo_ok fetchFile s content hs pre post [] hpre

theorem claim_C1_witness :
    ((fun src : Source =>
        if src.name == "a" then (Except.error "missing" : Except String String)
        else Except.ok src.name) ⟨"a", "local", none, none, none, none⟩
      = Except.error "missing")
    ∧ fetchTemplate
        [⟨"a", "local", none, none, none, none⟩, ⟨"b", "github", none, none, none, none⟩,
          ⟨"c", "local", none, none, none, none⟩]
        (fun src => if src.name == "a" then Except.error "missing" else Except.ok src.name)
      = Except.ok ("b", ⟨"b", "github", none, none, none, none⟩) := by
  refine ⟨rfl, ?_⟩
  exact claim_C1_first_success_wins
    (fun src => if src.name == "a" then Except.error "missing" else Except.ok src.name)
    [⟨"a", "local", none, none, none, none⟩] [⟨"c", "local", none, none, none, none⟩]
    ⟨"b", "github", none, none, none, none⟩ "b"
    (fun t ht => by
      rw [List.mem_singleton.mp ht]
      exact ⟨"missing", rfl⟩)
    rfl

theorem fetchTemplateGo_all_fail (fetchFile : Source → Except String String)
    (e : Source → String) :
    ∀ (sources : List Source) (errors : List String),
      (∀ s ∈ sources, fetchFile s = Except.error (e s)) →
      fetchTemplateGo fetchFile sources errors
        = Except.error ("Template not found in any source:\n"
            ++ String.intercalate "\n"
              (errors ++ sources.map (fun s => s.name ++ ": " ++ e s))) := by
  intro sources
  induction sources with
  | nil =>
    intro errors _
    simp [fetchTemplateGo]
  | cons s rest ih =>
    intro errors h
    have hs := h s (List.mem_cons_self s rest)
    simp only [fetchTemplateGo, hs]
    rw [ih _ (fun u hu => h u (List.mem_cons_of_mem s hu))]
    simp [List.append_assoc]

/-- C2: when every source fails, `fetchTemplate` throws a single aggregate
error: the fixed header followed by one newline-joined line per source in
configured order, each line being the source's name, a colon-space, and that
source's own failure message. -/
theorem claim_C2_aggregate_error (fetchFile : Source → Except String String)
    (sources : List Source) (e : Source → String)
    (h : ∀ s ∈ sources, fetchFile s = Except.error (e s)) :
    fetchTemplate sources fetchFile
      = Except.error ("Template not found in any source:\n"
          ++ String.intercalate "\n"
            (sources.map (fun s => s.name ++ ": " ++ e s))) := by
  have hg := fetchTemplateGo_all_fail fetchFile e sources [] h
  simpa [fetchTemplate] using hg

theorem claim_C2_witness :
    ((fun src : Source => (Except.error ("gone " ++ src.name) : Except String String))
        ⟨"a", "local", none, none, none, none⟩ = Except.error "gone a")
    ∧ fetchTemplate
        [⟨"a", "local", none, none, none, none⟩, ⟨"b", "github", none, none, none, none⟩]
        (fun src => Except.error ("gone " ++ src.name))
      = Except.error "Template not found in any source:\na: gone a\nb: gone b" := by
  refine ⟨rfl, ?_⟩
  rw [claim_C2_aggregate_error
    (fun src => Except.error ("gone " ++ src.name))
    [⟨"a", "local", none, none, none, none⟩, ⟨"b", "github", none, none, none, none⟩]
    (fun src => "gone " ++ src.name)
    (fun s hs => rfl)]
  rfl

/-! ### GitHub fetcher (`GitHubFetcher` in `src/bin/fetcher.js`) -/

/-- `GitHubFetcher.buildRawUrl(type, name)`: rewrites the configured
repository URL into a raw-content URL.  JavaScript `replace` with a string
pattern removes only the first occurrence of each pattern.  A source without
a `url` would crash the destructured property read in JavaScript; modelled as
an error value (never reached for configured github sources). -/
def buildRawUrl (source : Source) (type name : String) : Except String String :=
  match source.url with
  | none => Except.error "TypeError: url is undefined"
  | some url =>
    let branch := source.branch.getD "main"
    let basePath := source.path.getD "templates"
    if jsIncludes url "github.com" then
      let repoPath := replaceFirst (replaceFirst url "https://github.com/" "") ".git" ""
      Except.ok ("https://raw.githubusercontent.com/" ++ repoPath ++ "/" ++ branch ++ "/"
        ++ basePath ++ "/" ++ pluralizeType type ++ "/" ++ name ++ getFileExtension type)
    else
      Except.error "Invalid GitHub URL format"

/-- C8 counterexample: for the configured URL
`https://github.com/user/repo.github.git`, JavaScript removes the first
occurrence of `.git` — the one inside `.github` — producing repository path
`user/repohub.git`, not the suffix-stripped `user/repo.github` the claim
describes. -/
theorem claim_C8_counterexample :
    buildRawUrl ⟨"gh", "github", some "https://github.com/user/repo.github.git",
        none, none, none⟩ "component" "Button"
      = Except.ok
        "https://raw.githubusercontent.com/user/repohub.git/main/templates/components/Button.tsx"
    ∧ ("https://raw.githubusercontent.com/user/repohub.git/main/templates/components/Button.tsx"
        ≠ "https://raw.githubusercontent.com/user/repo.github/main/templates/components/Button.tsx") := by
  exact ⟨rfl, by decide⟩

theorem firstOccurIdx_isSome_append (pat : List Char) :
    ∀ (pre rest : List Char), startsWithL rest pat = true →
      (firstOccurIdx pat (pre ++ rest)).isSome = true := by
  intro pre
  induction pre with
  | nil =>
    intro rest h
    cases rest with
    | nil => simp [firstOccurIdx, h]
    | cons a t => simp [firstOccurIdx, h]
  | cons a t ih =>
    intro rest h
    by_cases hs : startsWithL (a :: (t ++ rest)) pat = true
    · simp [firstOccurIdx, hs]
    · simp only [List.cons_append, firstOccurIdx, List.append_eq]
      rw [if_neg hs]
      simpa using ih rest h

theorem replaceFirstL_strip_front (p rest : List Char) :
    replaceFirstL (p ++ rest) p [] = rest := by
  have hs : startsWithL (p ++ rest) p = true := startsWithL_append_self p rest
  have hidx : firstOccurIdx p (p ++ rest) = some 0 := by
    cases hpr : p ++ rest with
    | nil => rw [hpr] at hs; simp [firstOccurIdx, hs]
    | cons a t => rw [hpr] at hs; simp [firstOccurIdx, hs]
  simp [replaceFirstL, hidx, List.drop_left]

theorem firstOccurIdx_dotgit_append (core : List Char) (h : ∀ c ∈ core, c ≠ ('.')) :
    firstOccurIdx (".git".data) (core ++ ".git".data) = some core.length := by
  induction core with
  | nil => rfl
  | cons a t ih =>
    have ha : (a == ('.')) = false := by
      simpa using h a (List.mem_cons_self a t)
    have ht := ih (fun c hc => h c (List.mem_cons_of_mem a hc))
    have hns : startsWithL (a :: (t ++ ".git".data)) (".git".data) = false := by
      rw [show (".git".data) = ('.') :: "git".data from rfl]
      simp [startsWithL, ha]
    simp [firstOccurIdx, hns, ht]

theorem firstOccurIdx_dotgit_none (core : List Char) (h : ∀ c ∈ core, c ≠ ('.')) :
    firstOccurIdx (".git".data) core = none := by
  induction core with
  | nil => rfl
  | cons a t ih =>
    have ha : (a == ('.')) = false := by
      simpa using h a (List.mem_cons_self a t)
    have ht := ih (fun c hc => h c (List.mem_cons_of_mem a hc))
    have hns : startsWithL (a :: t) (".git".data) = false := by
      rw [show (".git".data) = ('.') :: "git".data from rfl]
      simp [startsWithL, ha]
    simp [firstOccurIdx, hns, ht]

theorem replaceFirstL_dotgit_suffix (core : List Char) (h : ∀ c ∈ core, c ≠ ('.')) :
    replaceFirstL (core ++ ".git".data) (".git".data) [] = core := by
  have hidx := firstOccurIdx_dotgit_append core h
  have hdrop : (core ++ ".git".data).drop (core.length + (".git".data).length) = [] := by
    rw [List.drop_append]
    exact List.drop_length _
  have htake : (core ++ ".git".data).take core.length = core := List.take_left core _
  simp [replaceFirstL, hidx, hdrop, htake]

theorem jsIncludes_github_prefix (tail : List Char) :
    jsIncludes (String.mk ("https://github.com/".data ++ tail)) "github.com" = true := by
  show (firstOccurIdx ("github.com".data)
    ("https://github.com/".data ++ tail)).isSome = true
  rw [show ("https://github.com/".data ++ tail)
      = "https://".data ++ ("github.com".data ++ (('/') :: tail)) from rfl]
  exact firstOccurIdx_isSome_append "github.com".data "https://".data _
    (startsWithL_append_self "github.com".data (('/') :: tail))

/-- C8 (amended): the raw-content URL is built by removing the first
occurrence of `https://github.com/` and the first occurrence of `.git` from
the configured URL.  For URLs `https://github.com/<owner>/<repo>` whose
`<owner>/<repo>` part contains no dot — where first-occurrence removal and
leading-prefix/trailing-suffix stripping coincide — the result is exactly
`https://raw.githubusercontent.com/<owner>/<repo>/<branch>/<basePath>/<pluralizedKind>/<name><ext>`,
with and without a trailing `.git` on the configured URL. -/
theorem claim_C8_amended_raw_url (core : List Char) (sname type name : String)
    (basePath branch : Option String) (h : ∀ c ∈ core, c ≠ ('.')) :
    (buildRawUrl ⟨sname, "github",
        some (String.mk ("https://github.com/".data ++ (core ++ ".git".data))),
        basePath, branch, none⟩ type name
      = Except.ok ("https://raw.githubusercontent.com/" ++ String.mk core ++ "/"
          ++ branch.getD "main" ++ "/" ++ basePath.getD "templates" ++ "/"
          ++ pluralizeType type ++ "/" ++ name ++ getFileExtension type))
    ∧ (buildRawUrl ⟨sname, "github",
        some (String.mk ("https://github.com/".data ++ core)),
        basePath, branch, none⟩ type name
      = Except.ok ("https://raw.githubusercontent.com/" ++ String.mk core ++ "/"
          ++ branch.getD "main" ++ "/" ++ basePath.getD "templates" ++ "/"
          ++ pluralizeType type ++ "/" ++ name ++ getFileExtension type)) := by
  constructor
  · have hinc := jsIncludes_github_prefix (core ++ ".git".data)
    have h1 : replaceFirst (String.mk ("https://github.com/".data ++ (core ++ ".git".data)))
        "https://github.com/" "" = String.mk (core ++ ".git".data) := by
      show String.mk (replaceFirstL ("https://github.com/".data ++ (core ++ ".git".data))
        ("https://github.com/".data) []) = _
      rw [replaceFirstL_strip_front]
    have h2 : replaceFirst (String.mk (core ++ ".git".data)) ".git" ""
        = String.mk core := by
      show String.mk (replaceFirstL (core ++ ".git".data) (".git".data) []) = _
      rw [replaceFirstL_dotgit_suffix core h]
    simp only [buildRawUrl, hinc, if_true, h1, h2]
  · have hinc := jsIncludes_github_prefix core
    have h1 : replaceFirst (String.mk ("https://github.com/".data ++ core))
        "https://github.com/" "" = String.mk core := by
      show String.mk (replaceFirstL ("https://github.com/".data ++ core)
        ("https://github.com/".data) []) = _
      rw [replaceFirstL_strip_front]
    have h2 : replaceFirst (String.mk core) ".git" "" = String.mk core := by
      show String.mk (replaceFirstL core (".git".data) []) = _
      rw [replaceFirstL]
      rw [firstOccurIdx_dotgit_none core h]
    simp only [buildRawUrl, hinc, if_true, h1, h2]

theorem claim_C8_witness :
    buildRawUrl ⟨"gh", "github", some "https://github.com/user/repo.git",
        none, none, none⟩ "hook" "useAuth"
      = Except.ok "https://raw.githubusercontent.com/user/repo/main/templates/hooks/useAuth.ts" :=
  (claim_C8_amended_raw_url ("user/repo".data) "gh" "hook" "useAuth" none none
    (by decide)).1

/-- An HTTP response as consumed by the fetch call. -/
structure HttpResponse where
  ok : Bool
  status : Nat
  statusText : String
  body : String
deriving DecidableEq

/-- `GitHubFetcher.fetchFile(type, name, useCache)` from `src/bin/fetcher.js`:
when `useCache`, the cache is consulted with the hard-coded TTL literal
`3600000` and a truthy cached string is returned without touching the
network; otherwise the raw URL is built (its error escapes unwrapped, being
thrown outside the try block), the fetch is performed (`net` models the HTTP
layer), a 404 maps to template-not-found and any other failure to a
status-text error — each rewrapped by the catch block with
`Failed to fetch from GitHub:` — and a success writes through to the cache
and returns the body with the new cache state. -/
def gitHubFetchFile (fs : CacheStore) (source : Source) (type name : String)
    (useCache : Bool) (now : Int) (net : String → Except String HttpResponse) :
    Except String (String × CacheStore) :=
  let cachedHit : Option String :=
    if useCache then
      match getCachedFile fs source type name 3600000 now with
      | some cached => if cached == "" then none else some cached
      | none => none
    else none
  match cachedHit with
  | some cached => Except.ok (cached, fs)
  | none =>
    match buildRawUrl source type name with
    | Except.error e => Except.error e
    | Except.ok url =>
      match net url with
      | Except.error e => Except.error ("Failed to fetch from GitHub: " ++ e)
      | Except.ok response =>
        if !response.ok then
          if response.status == 404 then
            Except.error ("Failed to fetch from GitHub: "
              ++ ("Template not found: " ++ type ++ "/" ++ name))
          else
            Except.error ("Failed to fetch from GitHub: "
              ++ ("Failed to fetch: " ++ response.statusText))
        else
          Except.ok (response.body, setCachedFile fs source type name response.body now)

/-- C5: evaluation at the failing input.  With the configured `cache.ttl` set
to 1000 ms, a cached entry of age 2000 ms — stale under the configured TTL,
per the claim — is still served from the cache by a git-kind fetch (here with
an unreachable network, proving the network was never consulted): the
validity check compares against the hard-coded literal 3600000 of
`GitHubFetcher.fetchFile`, the configured `cache.ttl` is never read by the
fetch path, and `fetchFile` accepts no per-call TTL override. -/
theorem claim_C5_hardcoded_ttl_eval :
    ((2000 : Int) - 0
      ≥ (Config.mk [⟨"gh", "github", some "https://github.com/o/r.git", none, none, none⟩]
          ⟨true, 1000⟩).cache.ttl)
    ∧ gitHubFetchFile
        (setCachedFile [] ⟨"gh", "github", some "https://github.com/o/r.git",
          none, none, none⟩ "hook" "useA" "A" 0)
        ⟨"gh", "github", some "https://github.com/o/r.git", none, none, none⟩
        "hook" "useA" true 2000 (fun _ => Except.error "network unreachable")
      = Except.ok ("A",
          setCachedFile [] ⟨"gh", "github", some "https://github.com/o/r.git",
            none, none, none⟩ "hook" "useA" "A" 0) := by
  exact ⟨by decide, rfl⟩

end Ampackage
